import Mathlib

/-!
Verification of the screen-capture OCR table-extraction pipeline
(`screen_capture_ocr.py`): the markdown table parser, the two-tier table
extractor, the CSV deduplication pass, and the capture-loop accumulation
invariants.

Python strings are embedded as `List Char` so that every operation is
kernel-computable; Python's `str.strip`, `str.split`, slicing and
truthiness tests are given faithful counterparts below.
-/

namespace ScreenCaptureOcr

/-- A Python string, embedded as its character list. -/
abbrev Str := List Char

/-- One CSV / table row: a list of string cells. -/
abbrev Row := List Str

/-- The whitespace characters stripped by Python's `str.strip()`
(space, tab, newline, carriage return, vertical tab, form feed). -/
def pyIsSpace (c : Char) : Bool :=
  c == ' ' || c == '\t' || c == '\n' || c == '\r' || c.toNat == 11 || c.toNat == 12

/-- Python `s.strip()`: remove leading and trailing whitespace. -/
def pyStrip (s : Str) : Str :=
  ((s.dropWhile pyIsSpace).reverse.dropWhile pyIsSpace).reverse

/-- Python `s.split(sep)` for a one-character separator: split at every
occurrence of `sep`; the result is always non-empty, and `"".split(sep)`
is `[""]`. -/
def pySplit (sep : Char) : Str → List Str
  | [] => [[]]
  | c :: cs =>
    if c == sep then [] :: pySplit sep cs
    else
      match pySplit sep cs with
      | r :: rs => (c :: r) :: rs
      | [] => [[c]]

/-! ## Markdown table parser (`parse_markdown_table_from_text`) -/

/-- `stripped_line.startswith('|') and stripped_line.endswith('|')`:
the test deciding whether a (stripped) line is a table line. -/
def isTableLine (s : Str) : Bool :=
  (match s with | c :: _ => c == '|' | [] => false) &&
  (match s.getLast? with | some c => c == '|' | none => false)

/-- `[cell.strip() for cell in stripped_line[1:-1].split('|')]`:
the cells of a (stripped) table line. -/
def lineCells (s : Str) : List Str :=
  (pySplit '|' ((s.drop 1).dropLast)).map pyStrip

/-- `all(all(c in '-: ' for c in cell) and cell for cell in cells)`:
every cell is non-empty and made only of `-`, `:` and space. -/
def isSeparatorCells (cells : List Str) : Bool :=
  cells.all (fun cell =>
    cell.all (fun c => c == '-' || c == ':' || c == ' ') && !cell.isEmpty)

/-- The parser's main loop over the lines: `acc` is `table_data` so far
(`acc = []` exactly when no table line has been seen, i.e. neither
`table_started` nor `header_parsed` holds), `colCount` is `column_count`.
A non-table line after the table started breaks the loop. -/
def collectRows : List Str → List Row → Nat → List Row
  | [], acc, _ => acc
  | line :: rest, acc, colCount =>
    let s := pyStrip line
    if isTableLine s then
      let cells := lineCells s
      if acc.isEmpty then
        collectRows rest [cells] cells.length
      else if cells.length == colCount && isSeparatorCells cells then
        collectRows rest acc colCount
      else
        collectRows rest (acc ++ [cells]) colCount
    else
      if acc.isEmpty then collectRows rest acc colCount
      else acc

/-- The line list the parser iterates over: `markdown_text.strip().split('\n')`. -/
def mdLines (md : Str) : List Str :=
  pySplit '\n' (pyStrip md)

/-- `parse_markdown_table_from_text`: parse the first markdown table of a
string; `none` models Python's `None`. -/
def parse_markdown_table_from_text (md : Str) : Option (List Row) :=
  if md.isEmpty then none
  else
    let td := collectRows (mdLines md) [] 0
    if td.isEmpty then none
    else if td.all (fun row => row.all (fun cell => cell.isEmpty)) then none
    else some td

/-! ## Structured-reformatting tier (`format_ocr_with_structured_output`) -/

/-- The parsed JSON object of the chat completion: `rows`, when the key is
present, holds a list of row objects, each an association of header keys to
cell values (`row_obj.get(header, "")` is association-list lookup with
default `""`). -/
structure ChatJson where
  rows : Option (List (List (Str × Str)))

/-- `format_ocr_with_structured_output`: `chatResp = none` models every
caught exception of the tier (API failure, `json.loads` failure, response
shape errors), which the `except` clause converts to `None`. Given a
parsed object, the tier succeeds only when `'rows' in parsed_data and
parsed_data['rows']` (key present and non-empty list); it then returns the
target headers followed by one row per row object, each cell read by
`row_obj.get(header, "")`. -/
def format_ocr_with_structured_output (chatResp : Option ChatJson)
    (target_headers : List Str) : Option (List Row) :=
  match chatResp with
  | none => none
  | some parsed =>
    match parsed.rows with
    | some (r :: rs) =>
      some (target_headers ::
        (r :: rs).map (fun rowObj =>
          target_headers.map (fun h => (List.lookup h rowObj).getD [])))
    | _ => none

/-! ## Table extractor (`extract_table_with_headers`) -/

/-- One OCR page, in either of the two shapes the source duck-types on:
an SDK object read through `hasattr`, or a plain dict read through `.get`.
`none` models an absent attribute / key. -/
inductive Page
  | obj (markdown : Option Str) (text : Option Str)
  | dict (markdown : Option Str) (text : Option Str)

/-- The contribution of one page to `raw_text`: an object page appends
`page_data.markdown + "\n"` when the attribute exists, else
`page_data.text + "\n"` when that exists, else nothing; a dict page
appends `page_data.get("markdown", "") + "\n"` and then
`page_data.get("text", "") + "\n"`. -/
def pageRawText : Page → Str
  | .obj (some md) _ => md ++ ['\n']
  | .obj none (some t) => t ++ ['\n']
  | .obj none none => []
  | .dict md t => (md.getD []) ++ ['\n'] ++ (t.getD []) ++ ['\n']

/-- The `raw_text` accumulation loop: start from `""` and append each
page's contribution in page order. -/
def rawText (pages : List Page) : Str :=
  pages.foldl (fun acc p => acc ++ pageRawText p) []

/-- Pad-or-trim of one parsed data row against the target headers:
`row[:len(target_headers)]` when `len(row) >= len(target_headers)`,
otherwise `row + [''] * (len(target_headers) - len(row))`. -/
def normalizeRow (target_headers : List Str) (row : Row) : Row :=
  if target_headers.length ≤ row.length then row.take target_headers.length
  else row ++ List.replicate (target_headers.length - row.length) []

/-- The `markdown_content` read of one page in the fallback loop: object
pages through the `markdown` attribute (skipped entirely when the
attribute is absent), dict pages through `.get("markdown", "")`. -/
def pageMarkdownContent : Page → Option Str
  | .obj md _ => md
  | .dict md _ => some (md.getD [])

/-- The markdown-parsing fallback loop of `extract_table_with_headers`:
for each page, read its markdown content, parse it when non-empty, and on
the first page whose parse yields a non-empty table return the target
headers followed by the parse's data rows (`table_data[1:]`), each padded
or trimmed to the header count. -/
def fallbackExtract : List Page → List Str → Option (List Row)
  | [], _ => none
  | page :: rest, target_headers =>
    match pageMarkdownContent page with
    | none => fallbackExtract rest target_headers
    | some mc =>
      if mc.isEmpty then fallbackExtract rest target_headers
      else
        match parse_markdown_table_from_text mc with
        | none => fallbackExtract rest target_headers
        | some td =>
          if td.isEmpty then fallbackExtract rest target_headers
          else some (target_headers :: (td.drop 1).map (normalizeRow target_headers))

/-- The guarded structured tier of `extract_table_with_headers`:
`if raw_text.strip() and api_key:` followed by the chat-completion
reformatting call. `apiKey = none` models calling without an API key
(tier skipped), and `apiKey = some chat` models a present key whose chat
completion produced `chat` (an input of the embedding, since the call is
a network effect). -/
def structuredTier (pages : List Page) (target_headers : List Str)
    (apiKey : Option (Option ChatJson)) : Option (List Row) :=
  if !(pyStrip (rawText pages)).isEmpty then
    match apiKey with
    | some chat => format_ocr_with_structured_output chat target_headers
    | none => none
  else none

/-- `extract_table_with_headers`: `resp = none` models an OCR response
exposing no `pages` attribute or key. The structured tier runs first;
when it returns a table, that table is the result, otherwise the markdown
fallback runs. -/
def extract_table_with_headers (resp : Option (List Page))
    (target_headers : List Str) (apiKey : Option (Option ChatJson)) :
    Option (List Row) :=
  match resp with
  | none => none
  | some pages =>
    if pages.isEmpty then none
    else
      match structuredTier pages target_headers apiKey with
      | some t => some t
      | none => fallbackExtract pages target_headers

/-! ## CSV deduplication (`deduplicate_csv`) -/

/-- The deduplication loop over the data rows: `seen` is the set of row
tuples already kept; a row already in `seen` is dropped, otherwise it is
kept and added to `seen`. -/
def dedupLoop : List Row → List Row → List Row
  | [], _ => []
  | r :: rs, seen =>
    if r ∈ seen then dedupLoop rs seen
    else r :: dedupLoop rs (r :: seen)

/-- `deduplicate_csv`, on the file's record list: an empty file is left
unchanged with 0 removals; otherwise the first record is the header, the
data rows are deduplicated, the file is rewritten as header plus unique
rows, and the count of removed rows is returned. -/
def deduplicate_csv : List Row → List Row × Nat
  | [] => ([], 0)
  | header :: data =>
    let uniqueRows := dedupLoop data []
    (header :: uniqueRows, data.length - uniqueRows.length)

/-- The spec's wording of the unique-row set, for comparison with the
source's `dedupLoop`: "an order-preserving unique set of data rows keyed
on the full cell tuple", i.e. keep each row's first occurrence, in order. -/
def specUniqueRows (data : List Row) : List Row :=
  data.foldl (fun acc r => if r ∈ acc then acc else acc ++ [r]) []

/-! ## Capture loop (`screen_capture_mode`) -/

/-- The per-cycle CSV append: when the extracted table is present and has
more than one record (`table_data and len(table_data) > 1`), its records
after the first (`table_data[1:]`, the data rows) are appended to the
file; otherwise the file is untouched. -/
def appendCycle (file : List Row) (table : Option (List Row)) : List Row :=
  match table with
  | some t => if 1 < t.length then file ++ t.drop 1 else file
  | none => file

/-- One cycle of the capture loop body: the `try` block's
capture/OCR/extraction either raises (`Except.error`, caught by the
cycle's `except` clause, leaving the file untouched) or produces the
extractor's result, which `appendCycle` then flushes. -/
def runCycle (file : List Row) (outcome : Except Unit (Option (List Row))) :
    List Row :=
  match outcome with
  | .error _ => file
  | .ok t => appendCycle file t

/-- The capture loop over a finite schedule of cycle outcomes. -/
def runCycles : List Row → List (Except Unit (Option (List Row))) → List Row
  | file, [] => file
  | file, o :: os => runCycles (runCycle file o) os

/-- The CSV file states reachable during a run: initialization writes the
single header record; each capture cycle appends the data rows of one
`extract_table_with_headers` result; the interrupt handler runs
`deduplicate_csv`. -/
inductive Reachable (target_headers : List Str) : List Row → Prop
  | init : Reachable target_headers [target_headers]
  | cycle (file : List Row) (resp : Option (List Page))
      (key : Option (Option ChatJson)) :
      Reachable target_headers file →
      Reachable target_headers
        (appendCycle file (extract_table_with_headers resp target_headers key))
  | dedup (file : List Row) :
      Reachable target_headers file →
      Reachable target_headers (deduplicate_csv file).1

/-! ## Lemmas about the deduplication loop -/

lemma dedupLoop_foldl (data : List Row) : ∀ (seen acc : List Row),
    (∀ r, r ∈ seen ↔ r ∈ acc) →
    acc ++ dedupLoop data seen
      = data.foldl (fun a r => if r ∈ a then a else a ++ [r]) acc := by
  induction data with
  | nil => intro seen acc _; simp [dedupLoop]
  | cons r rs ih =>
    intro seen acc h
    by_cases hr : r ∈ seen
    · rw [dedupLoop, if_pos hr, List.foldl_cons, if_pos ((h r).mp hr)]
      exact ih seen acc h
    · rw [dedupLoop, if_neg hr, List.foldl_cons,
        if_neg (fun hc => hr ((h r).mpr hc))]
      have hmem : ∀ x, x ∈ r :: seen ↔ x ∈ acc ++ [r] := by
        intro x
        simp only [List.mem_cons, List.mem_append, List.mem_singleton]
        rw [h x]
        tauto
      calc acc ++ r :: dedupLoop rs (r :: seen)
          = (acc ++ [r]) ++ dedupLoop rs (r :: seen) := by simp
        _ = rs.foldl (fun a x => if x ∈ a then a else a ++ [x]) (acc ++ [r]) :=
            ih (r :: seen) (acc ++ [r]) hmem

lemma dedupLoop_eq_spec (data : List Row) :
    dedupLoop data [] = specUniqueRows data := by
  have h := dedupLoop_foldl data [] [] (by simp)
  simpa [specUniqueRows] using h

lemma dedupLoop_sublist : ∀ (data seen : List Row),
    List.Sublist (dedupLoop data seen) data
  | [], _ => List.Sublist.refl []
  | r :: rs, seen => by
    rw [dedupLoop]
    by_cases hr : r ∈ seen
    · rw [if_pos hr]
      exact (dedupLoop_sublist rs seen).cons r
    · rw [if_neg hr]
      exact (dedupLoop_sublist rs (r :: seen)).cons₂ r

lemma dedupLoop_mem_iff : ∀ (data seen : List Row) (x : Row),
    x ∈ dedupLoop data seen ↔ (x ∈ data ∧ x ∉ seen)
  | [], _, x => by simp [dedupLoop]
  | r :: rs, seen, x => by
    rw [dedupLoop]
    by_cases hr : r ∈ seen
    · rw [if_pos hr, dedupLoop_mem_iff rs seen x]
      constructor
      · rintro ⟨hx, hns⟩; exact ⟨List.mem_cons_of_mem r hx, hns⟩
      · rintro ⟨hx, hns⟩
        rcases List.mem_cons.mp hx with hxr | hxs
        · exact absurd (hxr ▸ hr) hns
        · exact ⟨hxs, hns⟩
    · rw [if_neg hr]
      constructor
      · intro hx
        rcases List.mem_cons.mp hx with hxr | hxs
        · exact ⟨hxr ▸ List.mem_cons_self r rs, hxr ▸ hr⟩
        · have hm := (dedupLoop_mem_iff rs (r :: seen) x).mp hxs
          exact ⟨List.mem_cons_of_mem r hm.1,
            fun hc => hm.2 (List.mem_cons_of_mem r hc)⟩
      · rintro ⟨hx, hns⟩
        rcases List.mem_cons.mp hx with hxr | hxs
        · exact hxr ▸ List.mem_cons_self r _
        · by_cases hxr2 : x = r
          · exact hxr2 ▸ List.mem_cons_self r _
          · refine List.mem_cons_of_mem r
              ((dedupLoop_mem_iff rs (r :: seen) x).mpr ⟨hxs, ?_⟩)
            intro hc
            rcases List.mem_cons.mp hc with h1 | h2
            · exact hxr2 h1
            · exact hns h2

lemma dedupLoop_nodup : ∀ (data seen : List Row), (dedupLoop data seen).Nodup
  | [], _ => List.nodup_nil
  | r :: rs, seen => by
    rw [dedupLoop]
    by_cases hr : r ∈ seen
    · rw [if_pos hr]; exact dedupLoop_nodup rs seen
    · rw [if_neg hr]
      refine List.nodup_cons.mpr ⟨?_, dedupLoop_nodup rs (r :: seen)⟩
      intro hc
      exact ((dedupLoop_mem_iff rs (r :: seen) r).mp hc).2 (List.mem_cons_self r seen)

lemma dedupLoop_eq_self : ∀ (data seen : List Row), data.Nodup →
    (∀ r ∈ data, r ∉ seen) → dedupLoop data seen = data
  | [], _, _, _ => rfl
  | r :: rs, seen, hnd, hdisj => by
    rw [dedupLoop, if_neg (hdisj r (List.mem_cons_self r rs))]
    congr 1
    refine dedupLoop_eq_self rs (r :: seen) (List.nodup_cons.mp hnd).2 ?_
    intro x hx
    rw [List.mem_cons]
    rintro (hxr | hxs)
    · exact (List.nodup_cons.mp hnd).1 (hxr ▸ hx)
    · exact hdisj x (List.mem_cons_of_mem r hx) hxs

/-- C3: `deduplicate_csv` rewrites a headed file as the header followed by
exactly the data rows that are unique as full cell tuples, in
first-occurrence order (the spec-worded `specUniqueRows`), and returns the
original data-row count minus the unique count; the unique rows are a
duplicate-free sublist of the data containing every data row, and the
example data rows `[A, B, A, C, B]` become `[A, B, C]` with 2 removals. -/
theorem dedup_rewrites_unique_rows_first_occurrence (header : Row) (data : List Row) :
    deduplicate_csv (header :: data)
      = (header :: specUniqueRows data,
         data.length - (specUniqueRows data).length) ∧
    List.Sublist (specUniqueRows data) data ∧
    (∀ r, r ∈ specUniqueRows data ↔ r ∈ data) ∧
    (specUniqueRows data).Nodup ∧
    deduplicate_csv [[['h']], [['A']], [['B']], [['A']], [['C']], [['B']]]
      = ([[['h']], [['A']], [['B']], [['C']]], 2) := by
  refine ⟨?_, ?_, ?_, ?_, by decide⟩
  · simp [deduplicate_csv, dedupLoop_eq_spec]
  · rw [← dedupLoop_eq_spec]; exact dedupLoop_sublist data []
  · intro r
    rw [← dedupLoop_eq_spec, dedupLoop_mem_iff]
    simp
  · rw [← dedupLoop_eq_spec]; exact dedupLoop_nodup data []

/-- C4: deduplication is idempotent — a second `deduplicate_csv` run on the
rewritten file removes 0 rows and leaves the file unchanged — and the
header record is identical before and after deduplication. -/
theorem dedup_idempotent_and_header_preserved (rows : List Row) :
    deduplicate_csv (deduplicate_csv rows).1 = ((deduplicate_csv rows).1, 0) ∧
    (deduplicate_csv rows).1.head? = rows.head? := by
  match rows with
  | [] => exact ⟨rfl, rfl⟩
  | header :: data =>
    have hself : dedupLoop (dedupLoop data []) [] = dedupLoop data [] :=
      dedupLoop_eq_self (dedupLoop data []) [] (dedupLoop_nodup data [])
        (by intro r _; exact List.not_mem_nil r)
    refine ⟨?_, rfl⟩
    simp [deduplicate_csv, hself]

/-! ## Lemmas about the markdown parser loop -/

lemma collectRows_no_table : ∀ (lines : List Str) (acc : List Row) (c : Nat),
    (∀ l ∈ lines, isTableLine (pyStrip l) = false) →
    collectRows lines acc c = acc
  | [], _, _, _ => rfl
  | line :: rest, acc, c, h => by
    have hline : isTableLine (pyStrip line) = false :=
      h line (List.mem_cons_self line rest)
    have hrest : ∀ l ∈ rest, isTableLine (pyStrip l) = false :=
      fun l hl => h l (List.mem_cons_of_mem line hl)
    simp only [collectRows, hline, Bool.false_eq_true, if_false]
    cases acc with
    | nil => simpa using collectRows_no_table rest [] c hrest
    | cons a as => simp

lemma collectRows_ne_nil : ∀ (lines : List Str) (acc : List Row) (c : Nat),
    acc ≠ [] → collectRows lines acc c ≠ []
  | [], acc, _, h => h
  | line :: rest, acc, c, h => by
    simp only [collectRows]
    split
    · rw [List.isEmpty_eq_false.mpr h]
      simp only [Bool.false_eq_true, if_false]
      split
      · exact collectRows_ne_nil rest acc c h
      · exact collectRows_ne_nil rest (acc ++ [lineCells (pyStrip line)]) c
          (by simp)
    · rw [List.isEmpty_eq_false.mpr h]
      simpa using h

lemma collectRows_eq_nil : ∀ (lines : List Str) (acc : List Row) (c : Nat),
    collectRows lines acc c = [] →
    acc = [] ∧ ∀ l ∈ lines, isTableLine (pyStrip l) = false
  | [], acc, _, h => ⟨h, by simp⟩
  | line :: rest, acc, c, h => by
    by_cases ht : isTableLine (pyStrip line) = true
    · exfalso
      simp only [collectRows, ht, if_true] at h
      cases acc with
      | nil =>
        simp only [List.isEmpty_nil, if_true] at h
        exact collectRows_ne_nil rest [lineCells (pyStrip line)]
          (lineCells (pyStrip line)).length (by simp) h
      | cons a as =>
        simp only [List.isEmpty_cons, Bool.false_eq_true, if_false] at h
        split at h
        · exact collectRows_ne_nil rest (a :: as) c (by simp) h
        · exact collectRows_ne_nil rest ((a :: as) ++ [lineCells (pyStrip line)]) c
            (by simp) h
    · have ht2 : isTableLine (pyStrip line) = false := by
        cases hb : isTableLine (pyStrip line)
        · rfl
        · exact absurd hb ht
      simp only [collectRows, ht2, Bool.false_eq_true, if_false] at h
      cases acc with
      | nil =>
        simp only [List.isEmpty_nil, if_true] at h
        have hrec := collectRows_eq_nil rest [] c h
        refine ⟨rfl, ?_⟩
        intro l hl
        rcases List.mem_cons.mp hl with hll | hlr
        · exact hll ▸ ht2
        · exact hrec.2 l hlr
      | cons a as =>
        simp only [List.isEmpty_cons, Bool.false_eq_true, if_false] at h
        exact absurd h (by simp)

/-- C5: in the markdown parser's loop, once the header row has been
recorded (`acc ≠ []`, with `colCount` the header's cell count), a table
line whose cells number exactly `colCount` and are all non-empty strings
of `-`, `:` and space is skipped, and any other table line is appended as
a data row regardless of its cell count; concretely, parsing
`"| a | b |\n|---|---|\n| 1 | 2 |"` yields the header `["a","b"]` and the
single data row `["1","2"]`, the separator row being excluded. -/
theorem separator_rows_skipped_others_emitted (line : Str) (rest : List Str)
    (acc : List Row) (colCount : Nat) (hacc : acc ≠ [])
    (htl : isTableLine (pyStrip line) = true) :
    ((lineCells (pyStrip line)).length = colCount ∧
        isSeparatorCells (lineCells (pyStrip line)) = true →
      collectRows (line :: rest) acc colCount = collectRows rest acc colCount) ∧
    (¬((lineCells (pyStrip line)).length = colCount ∧
        isSeparatorCells (lineCells (pyStrip line)) = true) →
      collectRows (line :: rest) acc colCount
        = collectRows rest (acc ++ [lineCells (pyStrip line)]) colCount) ∧
    parse_markdown_table_from_text "| a | b |\n|---|---|\n| 1 | 2 |".toList
      = some [["a".toList, "b".toList], ["1".toList, "2".toList]] := by
  refine ⟨?_, ?_, by decide⟩
  · rintro ⟨hlen, hsep⟩
    simp only [collectRows, htl, if_true, List.isEmpty_eq_false.mpr hacc,
      Bool.false_eq_true, if_false, hlen, hsep, beq_self_eq_true,
      Bool.and_self, Bool.true_and]
  · intro hns
    have hb : ((lineCells (pyStrip line)).length == colCount &&
        isSeparatorCells (lineCells (pyStrip line))) = false := by
      by_cases h1 : (lineCells (pyStrip line)).length = colCount
      · by_cases h2 : isSeparatorCells (lineCells (pyStrip line)) = true
        · exact absurd ⟨h1, h2⟩ hns
        · simp [h2]
      · simp [h1]
    simp only [collectRows, htl, if_true, List.isEmpty_eq_false.mpr hacc,
      Bool.false_eq_true, if_false, hb]

/-- C5 witness: a concrete separator row (`|-|` after a one-column header)
is skipped by the loop. -/
theorem separator_rows_skipped_witness :
    collectRows ["|-|".toList] [["a".toList]] 1
      = collectRows [] [["a".toList]] 1 :=
  (separator_rows_skipped_others_emitted "|-|".toList [] [["a".toList]] 1
    (by decide) (by decide)).1 (by decide)

/-- C6: the markdown parser returns `none` exactly when no line of the
text is a table line, or every row it collected (header included)
consists only of empty cells. -/
theorem parser_absent_iff_no_table_or_all_empty (md : Str) :
    parse_markdown_table_from_text md = none ↔
      (∀ l ∈ mdLines md, isTableLine (pyStrip l) = false) ∨
      (∀ row ∈ collectRows (mdLines md) [] 0, ∀ cell ∈ row, cell = []) := by
  have hA : collectRows (mdLines md) [] 0 = [] ↔
      (∀ l ∈ mdLines md, isTableLine (pyStrip l) = false) :=
    ⟨fun h => (collectRows_eq_nil _ _ _ h).2,
     fun h => collectRows_no_table _ _ _ h⟩
  have hB : (collectRows (mdLines md) [] 0).all
        (fun row => row.all (fun cell => cell.isEmpty)) = true ↔
      (∀ row ∈ collectRows (mdLines md) [] 0, ∀ cell ∈ row, cell = []) := by
    simp [List.all_eq_true, List.isEmpty_iff]
  constructor
  · intro h
    unfold parse_markdown_table_from_text at h
    dsimp only at h
    split at h
    · left
      have hmd : md = [] := List.isEmpty_iff.mp (by assumption)
      subst hmd
      decide
    · split at h
      · left
        exact hA.mp (List.isEmpty_iff.mp (by assumption))
      · split at h
        · right
          exact hB.mp (by assumption)
        · exact absurd h (by simp)
  · intro h
    unfold parse_markdown_table_from_text
    dsimp only
    split
    · rfl
    · rcases h with hleft | hright
      · have hnil : collectRows (mdLines md) [] 0 = [] := hA.mpr hleft
        simp [hnil]
      · by_cases hn : (collectRows (mdLines md) [] 0).isEmpty
        · simp [hn]
        · simp [hn, hB.mpr hright]

/-! ## Lemmas about the extractor -/

lemma normalizeRow_length (target_headers : List Str) (row : Row) :
    (normalizeRow target_headers row).length = target_headers.length := by
  unfold normalizeRow
  split
  · rw [List.length_take]
    omega
  · rw [List.length_append, List.length_replicate]
    omega

lemma format_row_lengths (chat : Option ChatJson) (target_headers : List Str)
    (t : List Row) (h : format_ocr_with_structured_output chat target_headers = some t) :
    ∀ row ∈ t.drop 1, row.length = target_headers.length := by
  match chat with
  | none => exact absurd h (by simp [format_ocr_with_structured_output])
  | some parsed =>
    match hr : parsed.rows with
    | none => simp [format_ocr_with_structured_output, hr] at h
    | some [] => simp [format_ocr_with_structured_output, hr] at h
    | some (r :: rs) =>
      simp only [format_ocr_with_structured_output, hr, Option.some.injEq] at h
      subst h
      intro row hrow
      simp only [List.drop_succ_cons, List.drop_zero, List.mem_map] at hrow
      obtain ⟨ro, _, hro⟩ := hrow
      rw [← hro, List.length_map]

lemma fallback_row_lengths : ∀ (pages : List Page) (target_headers : List Str)
    (t : List Row), fallbackExtract pages target_headers = some t →
    ∀ row ∈ t.drop 1, row.length = target_headers.length
  | [], _, t, h => by simp [fallbackExtract] at h
  | page :: rest, target_headers, t, h => by
    rw [fallbackExtract] at h
    split at h
    · exact fallback_row_lengths rest target_headers t h
    · split at h
      · exact fallback_row_lengths rest target_headers t h
      · split at h
        · exact fallback_row_lengths rest target_headers t h
        · split at h
          · exact fallback_row_lengths rest target_headers t h
          · rw [Option.some.injEq] at h
            subst h
            intro row hrow
            simp only [List.drop_succ_cons, List.drop_zero, List.mem_map] at hrow
            obtain ⟨r, _, hr⟩ := hrow
            rw [← hr, normalizeRow_length]

lemma structuredTier_eq_some (pages : List Page) (target_headers : List Str)
    (key : Option (Option ChatJson)) (t : List Row)
    (h : structuredTier pages target_headers key = some t) :
    ∃ chat, key = some chat ∧
      format_ocr_with_structured_output chat target_headers = some t := by
  unfold structuredTier at h
  split at h
  · cases key with
    | none => exact absurd h (by simp)
    | some chat => exact ⟨chat, rfl, h⟩
  · exact absurd h (by simp)

lemma extract_eq_some_cases (resp : Option (List Page)) (target_headers : List Str)
    (key : Option (Option ChatJson)) (t : List Row)
    (h : extract_table_with_headers resp target_headers key = some t) :
    (∃ chat, format_ocr_with_structured_output chat target_headers = some t) ∨
    (∃ pages, resp = some pages ∧ fallbackExtract pages target_headers = some t) := by
  match resp with
  | none => exact absurd h (by simp [extract_table_with_headers])
  | some pages =>
    simp only [extract_table_with_headers] at h
    split at h
    · exact absurd h (by simp)
    · cases hs : structuredTier pages target_headers key with
      | some t2 =>
        rw [hs, Option.some.injEq] at h
        subst h
        obtain ⟨chat, _, hfmt⟩ := structuredTier_eq_some pages target_headers key t2 hs
        exact Or.inl ⟨chat, hfmt⟩
      | none =>
        rw [hs] at h
        exact Or.inr ⟨pages, rfl, h⟩

/-- C1: for every non-empty declared header set, every data row of a table
returned by `extract_table_with_headers` (through either tier) has exactly
as many cells as there are headers: the structured tier builds each row by
looking up every header key, and the markdown fallback pads short rows and
truncates long ones. -/
theorem extracted_rows_have_header_width (resp : Option (List Page))
    (target_headers : List Str) (key : Option (Option ChatJson)) (t : List Row)
    (_hne : target_headers ≠ [])
    (h : extract_table_with_headers resp target_headers key = some t) :
    ∀ row ∈ t.drop 1, row.length = target_headers.length := by
  rcases extract_eq_some_cases resp target_headers key t h with
    ⟨chat, hfmt⟩ | ⟨pages, _, hfb⟩
  · exact format_row_lengths chat target_headers t hfmt
  · exact fallback_row_lengths pages target_headers t hfb

/-- C1 witness: a concrete OCR page whose markdown table has a 3-cell data
row under a 2-header declaration is truncated to width 2. -/
theorem extracted_rows_width_witness :
    (["1".toList, "2".toList] : Row).length
      = (["X".toList, "Y".toList] : List Str).length :=
  extracted_rows_have_header_width
    (some [Page.obj (some "| a | b |\n| 1 | 2 | 3 |".toList) none])
    ["X".toList, "Y".toList] none
    [["X".toList, "Y".toList], ["1".toList, "2".toList]]
    (by decide) (by decide) ["1".toList, "2".toList] (by decide)

/-- C2 counterexample: an OCR page whose markdown holds a single table line
(a header row with no data rows), extracted without an API key, makes
`extract_table_with_headers` return a table consisting of the target
header row alone with zero data rows — not `None` as the claim states. -/
theorem extract_returns_header_only_table :
    extract_table_with_headers
        (some [Page.obj (some "| a | b |".toList) none])
        ["Name".toList] none
      = some [["Name".toList]] ∧
    ([["Name".toList]] : List Row).drop 1 = [] := by decide

/-- C2 amended: when the structured tier produces nothing and the markdown
parser finds no table (not even a header-only one) on any page,
`extract_table_with_headers` returns `None`; when the parser finds a table
with a header row but no data rows, the function instead returns the
target header row alone. -/
theorem extract_absent_when_no_tier_produces_table (pages : List Page)
    (target_headers : List Str) (key : Option (Option ChatJson))
    (hstruct : ∀ chat, key = some chat →
      format_ocr_with_structured_output chat target_headers = none)
    (hfb : fallbackExtract pages target_headers = none) :
    extract_table_with_headers (some pages) target_headers key = none := by
  simp only [extract_table_with_headers]
  split
  · rfl
  · have hst : structuredTier pages target_headers key = none := by
      unfold structuredTier
      split
      · cases key with
        | none => rfl
        | some chat => exact hstruct chat rfl
      · rfl
    rw [hst, hfb]

/-- C2 amended witness: a page with markdown free of pipes, under a failed
structured tier, yields `None`. -/
theorem extract_absent_witness :
    extract_table_with_headers
        (some [Page.obj (some "no table here".toList) none])
        ["Name".toList] (some none) = none :=
  extract_absent_when_no_tier_produces_table _ _ _
    (fun chat hc => by injection hc with h2; subst h2; rfl) (by decide)

/-- C7 counterexample: a dict-shaped page exposing both a markdown
rendering `"A"` and a plain-text rendering `"B"` contributes both to the
raw text blob (`"A\nB\n"`), so the plain text is not ignored when markdown
is present, contrary to the claim. -/
theorem raw_text_dict_page_includes_text_counterexample :
    rawText [Page.dict (some ['A']) (some ['B'])] = ['A', '\n', 'B', '\n'] ∧
    'B' ∈ rawText [Page.dict (some ['A']) (some ['B'])] := by decide

lemma rawText_foldl_acc (ps : List Page) : ∀ (acc : Str),
    ps.foldl (fun a p => a ++ pageRawText p) acc
      = acc ++ ps.foldl (fun a p => a ++ pageRawText p) [] := by
  induction ps with
  | nil => intro acc; simp
  | cons p ps ih =>
    intro acc
    rw [List.foldl_cons, List.foldl_cons, ih (acc ++ pageRawText p),
      ih ([] ++ pageRawText p)]
    simp

lemma rawText_cons (p : Page) (ps : List Page) :
    rawText (p :: ps) = pageRawText p ++ rawText ps := by
  unfold rawText
  rw [List.foldl_cons, rawText_foldl_acc]
  simp

/-- C7 amended: the raw text blob is built page by page in page order,
each page's contribution newline-terminated: an object page contributes
its markdown when the attribute is present (its plain text is then
ignored), else its plain text when present, else nothing; a dict page
contributes its markdown value (default empty) and then its text value
(default empty), each followed by a newline. The extractor returns `None`
when the response has no `pages` attribute or the page list is empty. -/
theorem raw_text_blob_construction :
    (∀ (m : Str) (t : Option Str) (ps : List Page),
      rawText (Page.obj (some m) t :: ps) = m ++ '\n' :: rawText ps) ∧
    (∀ (t : Str) (ps : List Page),
      rawText (Page.obj none (some t) :: ps) = t ++ '\n' :: rawText ps) ∧
    (∀ ps : List Page, rawText (Page.obj none none :: ps) = rawText ps) ∧
    (∀ (md t : Option Str) (ps : List Page),
      rawText (Page.dict md t :: ps)
        = md.getD [] ++ '\n' :: (t.getD [] ++ '\n' :: rawText ps)) ∧
    (∀ (target_headers : List Str) (key : Option (Option ChatJson)),
      extract_table_with_headers none target_headers key = none ∧
      extract_table_with_headers (some []) target_headers key = none) := by
  refine ⟨?_, ?_, ?_, ?_, fun _ _ => ⟨rfl, rfl⟩⟩
  · intro m t ps
    rw [rawText_cons]
    simp [pageRawText]
  · intro t ps
    rw [rawText_cons]
    simp [pageRawText]
  · intro ps
    rw [rawText_cons]
    simp [pageRawText]
  · intro md t ps
    rw [rawText_cons]
    simp [pageRawText]

/-- C8: over every CSV file state reachable in a capture run — the header
written at initialization, any number of cycle appends (which write only
the data rows of an extraction result), and deduplication passes — the
file is non-empty and its first record is exactly the declared header set,
so the column count and order never change mid-run. -/
theorem header_invariant_over_reachable_states (target_headers : List Str)
    (s : List Row) (hs : Reachable target_headers s) :
    s.head? = some target_headers := by
  induction hs with
  | init => rfl
  | cycle file resp key _ ih =>
    unfold appendCycle
    split
    · split
      · cases file with
        | nil => simp at ih
        | cons a as => simpa using ih
      · exact ih
    · exact ih
  | dedup file _ ih =>
    cases file with
    | nil => simp at ih
    | cons a as =>
      simp only [List.head?_cons, Option.some.injEq] at ih
      subst ih
      rfl

/-- C8 witness: after initialization and one concrete capture cycle, the
file's first record is still the header. -/
theorem header_invariant_witness :
    (appendCycle [["H".toList]]
        (extract_table_with_headers
          (some [Page.obj (some "| a |\n| 1 |".toList) none])
          ["H".toList] none)).head?
      = some ["H".toList] :=
  header_invariant_over_reachable_states _ _
    (Reachable.cycle _ _ _ Reachable.init)

/-- C9: a cycle whose capture/OCR/extraction raises is caught inside the
cycle: it contributes zero rows, leaves the CSV file exactly as it was,
and the loop goes on to execute the subsequent cycles on that unchanged
file instead of aborting. -/
theorem failed_cycle_leaves_csv_and_loop_intact (file : List Row)
    (post : List (Except Unit (Option (List Row)))) :
    runCycle file (Except.error ()) = file ∧
    runCycles file (Except.error () :: post) = runCycles file post :=
  ⟨rfl, rfl⟩

/-- C10: a structured-reformatting response that parses to an object whose
`rows` key is missing or holds the empty array makes the structured tier
return `None`, and `extract_table_with_headers` then runs the markdown
fallback — exactly as it does for malformed JSON (`chat = none`). -/
theorem empty_rows_key_falls_through_to_markdown (pages : List Page)
    (target_headers : List Str) (j : ChatJson)
    (hrows : j.rows = none ∨ j.rows = some []) :
    format_ocr_with_structured_output (some j) target_headers = none ∧
    extract_table_with_headers (some pages) target_headers (some (some j))
      = fallbackExtract pages target_headers ∧
    extract_table_with_headers (some pages) target_headers (some none)
      = fallbackExtract pages target_headers := by
  have hfmt : format_ocr_with_structured_output (some j) target_headers = none := by
    rcases hrows with h | h <;> simp [format_ocr_with_structured_output, h]
  refine ⟨hfmt, ?_, ?_⟩
  · simp only [extract_table_with_headers]
    split
    · rename_i hp
      rw [List.isEmpty_iff.mp hp]
      rfl
    · have hst : structuredTier pages target_headers (some (some j)) = none := by
        unfold structuredTier
        split
        · exact hfmt
        · rfl
      rw [hst]
  · simp only [extract_table_with_headers]
    split
    · rename_i hp
      rw [List.isEmpty_iff.mp hp]
      rfl
    · have hst : structuredTier pages target_headers (some none) = none := by
        unfold structuredTier
        split
        · rfl
        · rfl
      rw [hst]

/-- C10 witness: a parsed response with `rows` mapping to the empty array
falls through to the markdown fallback on a concrete page. -/
theorem empty_rows_key_witness :
    format_ocr_with_structured_output (some ⟨some []⟩) [['h']] = none ∧
    extract_table_with_headers
        (some [Page.obj (some "| a |\n| 1 |".toList) none]) [['h']]
        (some (some ⟨some []⟩))
      = fallbackExtract [Page.obj (some "| a |\n| 1 |".toList) none] [['h']] ∧
    extract_table_with_headers
        (some [Page.obj (some "| a |\n| 1 |".toList) none]) [['h']]
        (some none)
      = fallbackExtract [Page.obj (some "| a |\n| 1 |".toList) none] [['h']] :=
  empty_rows_key_falls_through_to_markdown _ _ _ (Or.inr rfl)

end ScreenCaptureOcr
